import Mathlib

/-!
Verification of the numerobis runtime core against its specification.

The embedding models, in order:
  * the unit AST (`UnitNode`) and the structural simplifier of
    `src/runtime/numerobis/units/simplifier.c`, as a fuel-indexed machine
    `run` (C `double` scalars are modelled as exact rationals);
  * unit evaluation and logarithm detection from
    `src/runtime/numerobis/units/eval.c`;
  * boxed numbers and `number_binop`, `number_cmp`, `number__convert__`
    from `src/runtime/numerobis/types/number.c`;
  * index/slice arithmetic from `src/runtime/numerobis/utils/utils.c`,
    list `__getitem__` dispatch from `values.h`/`list.c`, and the string
    ordering operators from `str.c`.
-/

namespace Numerobis

/-- Unit-AST node kinds, mirroring the C `UnitKind` enum. -/
inductive UnitKind where
  | scalarK
  | productK
  | sumK
  | expressionK
  | negK
  | powerK
  | identifierK
  | oneK
deriving DecidableEq, Repr

/-- Unit AST, mirroring the C `UnitNode` struct.  Scalars carry exact
rationals in place of C doubles; identifiers carry only their numeric id
(the display name never affects semantics of the modelled functions). -/
inductive UnitNode where
  | one
  | scalar (v : ℚ)
  | ident (id : ℕ)
  | neg (c : UnitNode)
  | expr (c : UnitNode)
  | pow (base exp : UnitNode)
  | prod (cs : List UnitNode)
  | sum (cs : List UnitNode)

namespace UnitNode

/-- Discriminant of a node, as read through `node->kind` in C. -/
def kind : UnitNode → UnitKind
  | .one => .oneK
  | .scalar _ => .scalarK
  | .ident _ => .identifierK
  | .neg _ => .negK
  | .expr _ => .expressionK
  | .pow _ _ => .powerK
  | .prod _ => .productK
  | .sum _ => .sumK

/-- Children of a group node (`node->as.group.values`); empty for others. -/
def groupVals : UnitNode → List UnitNode
  | .prod cs => cs
  | .sum cs => cs
  | _ => []

/-- Test `node->kind == UNIT_SCALAR && node->as.scalar.value == v`. -/
def isScalarVal (u : UnitNode) (v : ℚ) : Bool :=
  match u with
  | .scalar x => x = v
  | _ => false

end UnitNode

/-- C `pow` on doubles, restricted to the exact fragment the runtime
exercises: integral exponents evaluate by repeated multiplication (with
`0 ^ e = 0` for negative `e`, where C would produce an infinity that the
rational model cannot carry); non-integral exponents are outside the
rational model and are mapped to `0`. -/
def qpow (a b : ℚ) : ℚ :=
  if b.den = 1 then a ^ b.num else 0

/-- Leading-coefficient decomposition of a term, mirroring `decompose` in
`simplifier.c`: strip every scalar factor of a `PRODUCT`, multiplying them
into the coefficient, and rebuild the remaining factors. -/
def decompose : UnitNode → ℚ × UnitNode
  | .prod vs =>
    let coeff := (vs.filter fun v => v.kind = .scalarK).foldl
      (fun a v => match v with | .scalar x => a * x | _ => a) 1
    let others := vs.filter fun v => ¬(v.kind = .scalarK)
    if (vs.filter fun v => v.kind = .scalarK).isEmpty then (1, .prod vs)
    else
      match others with
      | [] => (coeff, .one)
      | [x] => (coeff, x)
      | xs => (coeff, .prod xs)
  | u => (1, u)

/-- Rebuilt values for one product group, mirroring the reconstruction
loop of `simplify_product`: drop the base on total exponent `0`, emit it
bare on `1`, otherwise wrap it in a `POWER`. -/
def emitProd (base total : UnitNode) : List UnitNode :=
  match total with
  | .scalar v =>
    if v = 0 then []
    else if v = 1 then [base]
    else [.pow base total]
  | _ => [.pow base total]

/-- Rebuilt values for one sum group, mirroring the reconstruction loop of
`simplify_sum`: coefficient `0` drops the base, `1` emits it bare, any
other coefficient builds `PRODUCT[coeff, base...]` (splicing the values of
a `PRODUCT` base). -/
def emitSum (base : UnitNode) (coeff : ℚ) : List UnitNode :=
  if coeff = 0 then []
  else if coeff = 1 then [base]
  else
    match base with
    | .prod bv => [.prod (.scalar coeff :: bv)]
    | b => [.prod (.scalar coeff :: [b])]

/-- The `finalize` helper of `simplifier.c`: an empty group collapses to
the identity scalar, a singleton is unwrapped, anything else becomes a
group node of the requested kind. -/
def finalizeG (isProd : Bool) (identity : ℚ) : List UnitNode → UnitNode
  | [] => .scalar identity
  | [x] => x
  | xs => if isProd then .prod xs else .sum xs

/-- Final reconstruction of `simplify_sum` after the grouping pass. -/
def sumFinish (acc : ℚ) (groups : List (UnitNode × ℚ)) : UnitNode :=
  let vals := (if acc = 0 then [] else [UnitNode.scalar acc]) ++
    groups.foldr (fun g r => emitSum g.1 g.2 ++ r) []
  finalizeG false 0 vals

/-- Final reconstruction of `simplify_product` after the grouping pass and
exponent rebuilding. -/
def prodFinish (acc : ℚ) (rebuilt : List UnitNode) : UnitNode :=
  finalizeG true 1 ((if acc = 1 then [] else [UnitNode.scalar acc]) ++ rebuilt)

/-- Work items of the simplifier machine.  Each constructor corresponds to
one C function (or one loop inside it) of `simplifier.c`:
`simp` is `do_simplify`, `power` is `simplify_power` (on the components of
the power node), `product`/`summ` are `simplify_product`/`simplify_sum`
(on the group children), `flat` is `flatten`, `rebuild` is the
exponent-rebuilding loop of `simplify_product`, `collP`/`collS` are the
grouping loops, `addG`/`addC` the find-or-create-group searches, and
`eq`/`eqG`/`pick` implement `unit_equal` with its order-insensitive
first-fit matching of group children. -/
inductive Call where
  | simp (u : UnitNode)
  | power (b e : UnitNode)
  | product (cs : List UnitNode)
  | summ (cs : List UnitNode)
  | flat (k : UnitKind) (cs : List UnitNode)
  | rebuild (groups : List (UnitNode × List UnitNode))
  | collP (ts : List UnitNode) (acc : ℚ) (groups : List (UnitNode × List UnitNode))
  | collS (ts : List UnitNode) (acc : ℚ) (groups : List (UnitNode × ℚ))
  | addG (groups : List (UnitNode × List UnitNode)) (b e : UnitNode)
  | addC (groups : List (UnitNode × ℚ)) (b : UnitNode) (c : ℚ)
  | eq (a b : UnitNode)
  | eqG (as bs : List UnitNode)
  | pick (a : UnitNode) (bs : List UnitNode)

/-- Results of the simplifier machine, one constructor per result type of
the corresponding C functions. -/
inductive Res where
  | node (u : UnitNode)
  | nodes (l : List UnitNode)
  | bool (b : Bool)
  | pickR (r : Option (List UnitNode))
  | accP (acc : ℚ) (groups : List (UnitNode × List UnitNode))
  | accS (acc : ℚ) (groups : List (UnitNode × ℚ))
  | listP (l : List (UnitNode × List UnitNode))
  | listS (l : List (UnitNode × ℚ))

/-- One step of the simplifier machine: the body of every C function of
`simplifier.c`, with each recursive call routed through `rec`.  Each
`Call` case is a line-by-line transcription of the corresponding C
function; tying the knot with fuel happens in `run` below. -/
def runF (rec : Call → Option Res) (c : Call) : Option Res :=
    match c with
    | .simp u =>
      match u with
      | .expr c => rec (.simp c)
      | .neg c =>
        match rec (.simp c) with
        | some (.node val) =>
          match val with
          | .one => some (.node (.scalar (-1)))
          | .scalar v => some (.node (.scalar (-v)))
          | v => some (.node (.neg v))
        | _ => none
      | .pow b e => rec (.power b e)
      | .prod cs => rec (.product cs)
      | .sum cs => rec (.summ cs)
      | u => some (.node u)
    | .power b0 e0 =>
      match rec (.simp b0) with
      | some (.node base) =>
        match rec (.simp e0) with
        | some (.node exp) =>
          if exp.isScalarVal 0 then some (.node (.scalar 1))
          else if exp.isScalarVal 1 then some (.node base)
          else if exp.kind = .oneK then some (.node base)
          else if base.kind = .oneK then some (.node (.scalar 1))
          else
            match base with
            | .scalar a =>
              match exp with
              | .scalar b => some (.node (.scalar (qpow a b)))
              | exp => some (.node (.pow (.scalar a) exp))
            | .pow x a =>
              match rec (.product [a, exp]) with
              | some (.node newExp) => rec (.power x newExp)
              | _ => none
            | .prod bv => rec (.product (bv.map fun fac => .pow fac exp))
            | base => some (.node (.pow base exp))
        | _ => none
      | _ => none
    | .product cs =>
      match rec (.flat .productK cs) with
      | some (.nodes terms) =>
        match rec (.collP terms 1 []) with
        | some (.accP acc groups) =>
          match rec (.rebuild groups) with
          | some (.nodes rebuilt) => some (.node (prodFinish acc rebuilt))
          | _ => none
        | _ => none
      | _ => none
    | .summ cs =>
      match rec (.flat .sumK cs) with
      | some (.nodes terms) =>
        match rec (.collS terms 0 []) with
        | some (.accS acc groups) => some (.node (sumFinish acc groups))
        | _ => none
      | _ => none
    | .flat _ [] => some (.nodes [])
    | .flat k (c :: rest) =>
      match rec (.simp c) with
      | some (.node child) =>
        match rec (.flat k rest) with
        | some (.nodes tail) =>
          some (.nodes
            (if child.kind = k then child.groupVals ++ tail
             else if child.kind = .oneK then tail
             else child :: tail))
        | _ => none
      | _ => none
    | .rebuild [] => some (.nodes [])
    | .rebuild ((base, [e]) :: rest) =>
      match rec (.rebuild rest) with
      | some (.nodes tail) => some (.nodes (emitProd base e ++ tail))
      | _ => none
    | .rebuild ((base, eg) :: rest) =>
      match rec (.summ eg) with
      | some (.node total) =>
        match rec (.rebuild rest) with
        | some (.nodes tail) => some (.nodes (emitProd base total ++ tail))
        | _ => none
      | _ => none
    | .collP [] acc groups => some (.accP acc groups)
    | .collP (t :: ts) acc groups =>
      match t with
      | .scalar v => rec (.collP ts (acc * v) groups)
      | .pow b e =>
        match rec (.addG groups b e) with
        | some (.listP g2) => rec (.collP ts acc g2)
        | _ => none
      | t =>
        match rec (.addG groups t (.scalar 1)) with
        | some (.listP g2) => rec (.collP ts acc g2)
        | _ => none
    | .collS [] acc groups => some (.accS acc groups)
    | .collS (t :: ts) acc groups =>
      match t with
      | .scalar v => rec (.collS ts (acc + v) groups)
      | t =>
        if (decompose t).2.kind = .oneK then
          rec (.collS ts (acc + (decompose t).1) groups)
        else
          match rec (.addC groups (decompose t).2 (decompose t).1) with
          | some (.listS g2) => rec (.collS ts acc g2)
          | _ => none
    | .addG [] b e => some (.listP [(b, [e])])
    | .addG ((b0, eg) :: rest) b e =>
      match rec (.eq b0 b) with
      | some (.bool true) => some (.listP ((b0, eg ++ [e]) :: rest))
      | some (.bool false) =>
        match rec (.addG rest b e) with
        | some (.listP r) => some (.listP ((b0, eg) :: r))
        | _ => none
      | _ => none
    | .addC [] b c => some (.listS [(b, c)])
    | .addC ((b0, c0) :: rest) b c =>
      match rec (.eq b0 b) with
      | some (.bool true) => some (.listS ((b0, c0 + c) :: rest))
      | some (.bool false) =>
        match rec (.addC rest b c) with
        | some (.listS r) => some (.listS ((b0, c0) :: r))
        | _ => none
      | _ => none
    | .eq a b =>
      match a, b with
      | .one, .one => some (.bool true)
      | .scalar x, .scalar y => some (.bool (x = y))
      | .ident i, .ident j => some (.bool (i = j))
      | .neg x, .neg y => rec (.eq x y)
      | .expr x, .expr y => rec (.eq x y)
      | .pow xb xe, .pow yb ye =>
        match rec (.eq xb yb) with
        | some (.bool true) => rec (.eq xe ye)
        | some (.bool false) => some (.bool false)
        | _ => none
      | .prod xs, .prod ys =>
        if xs.length = ys.length then rec (.eqG xs ys) else some (.bool false)
      | .sum xs, .sum ys =>
        if xs.length = ys.length then rec (.eqG xs ys) else some (.bool false)
      | _, _ => some (.bool false)
    | .eqG [] _ => some (.bool true)
    | .eqG (a :: as) bs =>
      match rec (.pick a bs) with
      | some (.pickR (some bs2)) => rec (.eqG as bs2)
      | some (.pickR none) => some (.bool false)
      | _ => none
    | .pick _ [] => some (.pickR none)
    | .pick a (b :: bs) =>
      match rec (.eq a b) with
      | some (.bool true) => some (.pickR (some bs))
      | some (.bool false) =>
        match rec (.pick a bs) with
        | some (.pickR r) => some (.pickR (r.map fun l => b :: l))
        | _ => none
      | _ => none

/-- Fuel-indexed interpreter for the mutually recursive simplifier of
`simplifier.c`.  The C recursion is not structurally decreasing (e.g.
`simplify_power` recurses on freshly built nodes), so every step consumes
one unit of fuel; `none` means the fuel ran out. -/
def run : ℕ → Call → Option Res
  | 0, _ => none
  | f + 1, c => runF (run f) c

/-- The `do_simplify` entry point at a given fuel. -/
def doSimplify (f : ℕ) (u : UnitNode) : Option UnitNode :=
  match run f (.simp u) with
  | some (.node s) => some s
  | _ => none

/-- C `unit_simplify`: a `NULL` argument yields a fresh `ONE` node,
otherwise the tree is simplified. -/
def unit_simplify (f : ℕ) : Option UnitNode → Option UnitNode
  | none => some .one
  | some u => doSimplify f u

/-- C `unit_equal` at a given fuel. -/
def unitEqual (f : ℕ) (a b : UnitNode) : Option Bool :=
  match run f (.eq a b) with
  | some (.bool r) => some r
  | _ => none

/-- Big-step structural equality of `unit_equal` (order-insensitive inside
`PRODUCT` and `SUM`). -/
def UEq (a b : UnitNode) : Prop := ∃ f, unitEqual f a b = some true

/-! Unit evaluation and logarithm detection, from `units/eval.c`. -/

/-- Evaluation modes of `eval_unit` (`EVAL_BASE`, `EVAL_NORMAL`,
`EVAL_INVERTED`). -/
inductive EvalMode where
  | base
  | normal
  | inverted
deriving DecidableEq

/-- Compiler-supplied hooks for base units (`extern` symbols of the
runtime): `base_unit`, `unit_id_eval`, `unit_id_eval_normal`,
`is_logarithmic`, all keyed by the 16-bit unit id. -/
structure Hooks where
  base_unit : ℕ → ℚ → ℚ
  unit_id_eval : ℕ → ℚ → ℚ
  unit_id_eval_normal : ℕ → ℚ → ℚ
  is_logarithmic : ℕ → Bool

/-- Body of `eval_unit` on a non-null node.  Group nodes accumulate left
to right from the identity, exactly as the C loop does. -/
def evalU (H : Hooks) (x : ℚ) (m : EvalMode) : UnitNode → ℚ
  | .scalar v => v
  | .sum cs => cs.attach.foldl (fun acc c => acc + evalU H x m c.1) 0
  | .prod cs => cs.attach.foldl (fun acc c => acc * evalU H x m c.1) 1
  | .expr c => evalU H x m c
  | .neg c => -evalU H x m c
  | .pow b e => qpow (evalU H x m b) (evalU H x m e)
  | .one => x
  | .ident i =>
    match m with
    | .base => H.base_unit i x
    | .inverted => H.unit_id_eval i x
    | .normal => H.unit_id_eval_normal i x
termination_by u => sizeOf u
decreasing_by
  all_goals simp_wf
  all_goals try omega
  all_goals
    have h9 := List.sizeOf_lt_of_mem c.2
    omega

/-- C `eval_unit`, including its `NULL` guard: a null node evaluates to
`1` in every mode. -/
def eval_unit (H : Hooks) (node : Option UnitNode) (x : ℚ) (m : EvalMode) : ℚ :=
  match node with
  | none => 1
  | some u => evalU H x m u

/-- Body of `is_unit_logarithmic` on a non-null node. -/
def islogU (H : Hooks) : UnitNode → Bool
  | .scalar _ => false
  | .sum cs => cs.attach.any fun c => islogU H c.1
  | .prod cs => cs.attach.any fun c => islogU H c.1
  | .neg c => islogU H c
  | .expr c => islogU H c
  | .pow b e => islogU H b || islogU H e
  | .one => false
  | .ident i => H.is_logarithmic i
termination_by u => sizeOf u
decreasing_by
  all_goals simp_wf
  all_goals try omega
  all_goals
    have h9 := List.sizeOf_lt_of_mem c.2
    omega

/-- C `is_unit_logarithmic`, including its `NULL` guard, which returns
`1`, i.e. `true`. -/
def is_unit_logarithmic (H : Hooks) : Option UnitNode → Bool
  | none => true
  | some u => islogU H u

/-! Boxed numbers, from `types/number.c` and the `Number` struct of
`values.h`.  A C double is modelled as `DF`: either NaN or an exact
rational (infinities and signed zero are outside the model; no claim
depends on them). -/

/-- Model of a C `gdouble`: NaN or a finite value as an exact rational. -/
inductive DF where
  | nan
  | fin (q : ℚ)
deriving DecidableEq

/-- Payload of a `Number`: the `NumberKind` discriminant together with the
corresponding union member. -/
inductive NumVal where
  | i64 (n : ℤ)
  | f64 (d : DF)
deriving DecidableEq

/-- The `Number` struct: a numeric payload and a unit pointer (nullable —
see the `OP_MOD` result below). -/
structure Number where
  val : NumVal
  unit : Option UnitNode

/-- The arithmetic operation selector of `number_binop`.  The C switch
handles every case except `OP_MOD`, which falls to `default`. -/
inductive OpKind where
  | add
  | sub
  | mul
  | div
  | pow
  | mod
  | dadd
  | dsub
deriving DecidableEq

/-- Fuelled floor of the binary logarithm (`Nat.log2` is defined by
well-founded recursion, which the kernel cannot evaluate; this structural
version can, and `n` itself is always enough fuel). -/
def log2fuel : ℕ → ℕ → ℕ
  | 0, _ => 0
  | f + 1, n => if n < 2 then 0 else log2fuel f (n / 2) + 1

/-- Floor of the binary logarithm. -/
def nlog2 (n : ℕ) : ℕ := log2fuel n n

/-- Round a natural number to the nearest IEEE-754 binary64 value
(53-bit significand, ties to even).  For a 64-bit integer the nearest
double is itself an integer, which this function returns. -/
def roundF64Nat (n : ℕ) : ℕ :=
  if n < Nat.pow 2 53 then n
  else
    let k := nlog2 n - 52
    let p := Nat.pow 2 k
    let q := n / p
    let r := n % p
    let half := Nat.pow 2 (k - 1)
    if r < half then q * p
    else if half < r then (q + 1) * p
    else if q % 2 = 0 then q * p else (q + 1) * p

/-- The C cast `(gdouble)(gint64 x)`: round to the nearest double,
symmetric in sign. -/
def f64ofInt (x : ℤ) : ℤ :=
  if 0 ≤ x then (roundF64Nat x.toNat : ℤ) else -(roundF64Nat (-x).toNat : ℤ)

/-- Finite rational content of a modelled double.  NaN has no rational
image; `0` is used where the C value would be NaN (no claim reads a NaN
through this function). -/
def dfToQ : DF → ℚ
  | .nan => 0
  | .fin q => q

/-- Truncation toward zero, the C `(gint64)` cast of a double. -/
def truncQ (q : ℚ) : ℤ :=
  if q < 0 then -((-q).floor) else q.floor

/-- The C cast `(gint64)` applied to a modelled double; NaN maps to `0`
(the C behaviour is unspecified there and no claim reads it). -/
def dfTrunc : DF → ℤ
  | .nan => 0
  | .fin q => truncQ q

/-- Test `kind == NUM_DOUBLE`. -/
def isDoubleNV : NumVal → Bool
  | .f64 _ => true
  | .i64 _ => false

/-- The C expression `(n->kind == NUM_DOUBLE) ? n->f64 : (gdouble)n->i64`,
read as a rational. -/
def asDoubleQ : NumVal → ℚ
  | .i64 k => (f64ofInt k : ℚ)
  | .f64 d => dfToQ d

/-- Test `unit != NULL && unit->kind == UNIT_ONE` (the C code reads
`unit->kind` without a null check; a null pointer is treated as not-ONE
here, which no claim exercises). -/
def unitIsOne : Option UnitNode → Bool
  | some .one => true
  | _ => false

/-- C `eval_number(n, _unit)`: resolve the unit argument (`NULL` falls
back to the number's own unit), then rescale through the base and
inverted evaluations unless the unit is `ONE`. -/
def eval_number (H : Hooks) (n : Number) (u? : Option UnitNode) : ℚ :=
  let unit : Option UnitNode := match u? with | none => n.unit | some u => some u
  let value : ℚ := asDoubleQ n.val
  if unitIsOne unit then value
  else
    let base := eval_unit H unit value .base
    let tgt := eval_unit H unit value .inverted
    let res := tgt / base
    if is_unit_logarithmic H unit then res else value * res

/-- C `number_binop(a, b, iop, fop, kind)`.  The unit of the result is
computed by the switch: `ADD`/`SUB` take the left unit unchanged with no
compatibility check, `MUL`/`DIV` build products, `POW` always builds
`U_PWR(ua, ub)` (the C guard `ub == U_ONE` compares `ub` with a freshly
allocated node, so it is never true), `DADD`/`DSUB` re-evaluate both
operands in the left unit, and `OP_MOD` falls to `default`, leaving the
unit `NULL`.  A null unit operand reaching `U_PROD`/`U_PWR` would be a
null dereference in C and is modelled as a `none` unit. -/
def number_binop (H : Hooks) (a b : Number)
    (iop : ℤ → ℤ → ℤ) (fop : ℚ → ℚ → ℚ) (kind : OpKind) : Number :=
  let na := a.val
  let nb := b.val
  let ua := a.unit
  let ub := b.unit
  let dimless := unitIsOne ub && unitIsOne ua
  let sw : Option UnitNode × Option (ℚ × ℚ) :=
    match kind with
    | .add => (ua, none)
    | .sub => (ua, none)
    | .mul =>
      (if dimless then some .one
       else match ua, ub with
            | some x, some y => some (.prod [x, y])
            | _, _ => none,
       none)
    | .div =>
      (if dimless then some .one
       else match ua, ub with
            | some x, some y => some (.prod [x, .pow y (.scalar (-1))])
            | _, _ => none,
       none)
    | .pow =>
      (match ua, ub with
       | some x, some y => some (.pow x y)
       | _, _ => none,
       none)
    | .dadd =>
      let x0 := eval_number H a ua
      let y0 := eval_number H b ua
      (ua, some (eval_unit H ua (fop x0 y0) .normal, 0))
    | .dsub =>
      let x0 := eval_number H a ua
      let y0 := eval_number H b ua
      (ua, some (eval_unit H ua (fop x0 y0) .normal, 0))
    | .mod => (none, none)
  if isDoubleNV na || isDoubleNV nb then
    let x : ℚ := match sw.2 with | some p => p.1 | none => asDoubleQ na
    let y : ℚ := match sw.2 with | some p => p.2 | none => asDoubleQ nb
    { val := .f64 (.fin (fop x y)), unit := sw.1 }
  else
    let xi : ℤ := match sw.2 with
      | some p => truncQ p.1
      | none => match na with | .i64 k => k | .f64 _ => 0
    let yi : ℤ := match sw.2 with
      | some p => truncQ p.2
      | none => match nb with | .i64 k => k | .f64 _ => 0
    { val := .i64 (iop xi yi), unit := sw.1 }

/-- C comparison `a > b` on doubles: false whenever a NaN is involved. -/
def dfGt : DF → DF → Bool
  | .fin x, .fin y => x > y
  | _, _ => false

/-- C comparison `a < b` on doubles: false whenever a NaN is involved. -/
def dfLt : DF → DF → Bool
  | .fin x, .fin y => x < y
  | _, _ => false

/-- C `number_cmp`: three-way comparison.  Same kinds compare natively
(`(a > b) - (a < b)`, which yields `0` when either double is NaN); mixed
kinds return `0` outright when the double side is NaN, and otherwise
compare `(gdouble)iv - fv` with the sign flipped when `a` is the double
side. -/
def number_cmp (a b : Number) : ℤ :=
  match a.val, b.val with
  | .i64 x, .i64 y => (if x > y then 1 else 0) - (if x < y then 1 else 0)
  | .f64 dx, .f64 dy => (if dfGt dx dy then 1 else 0) - (if dfLt dx dy then 1 else 0)
  | av, bv =>
    let iv : ℤ := match av with
      | .i64 k => k
      | _ => match bv with | .i64 k => k | _ => 0
    let fv : DF := match av with
      | .f64 d => d
      | _ => match bv with | .f64 d => d | _ => .nan
    let flip : ℤ := match av with | .f64 _ => -1 | _ => 1
    match fv with
    | .nan => 0
    | .fin q =>
      let diff : ℚ := (f64ofInt iv : ℚ) - q
      if diff ≠ 0 then
        flip * ((if 0 < diff then 1 else 0) - (if diff < 0 then 1 else 0))
      else 0

/-- C `number__lt__`. -/
def number__lt__ (a b : Number) : Bool := number_cmp a b < 0

/-- C `number__le__`. -/
def number__le__ (a b : Number) : Bool := number_cmp a b ≤ 0

/-- C `number__gt__`. -/
def number__gt__ (a b : Number) : Bool := 0 < number_cmp a b

/-- C `number__ge__`. -/
def number__ge__ (a b : Number) : Bool := 0 ≤ number_cmp a b

/-- C `number__eq__`. -/
def number__eq__ (a b : Number) : Bool := number_cmp a b = 0

/-- C `number__convert__(self, target)`: read the value as a double,
rescale it only when the target unit is `ONE`, and rebox it with the
target unit attached, preserving the number kind (with the `(gint64)`
cast on the integer path). -/
def number__convert__ (H : Hooks) (self : Number) (target : UnitNode) : Number :=
  let n := self.val
  let value0 : DF := match n with
    | .i64 k => .fin (f64ofInt k)
    | .f64 d => d
  let value : DF :=
    if target.kind = .oneK then
      let q := dfToQ value0
      let base := eval_unit H self.unit q .base
      let tgt := eval_unit H self.unit q .inverted
      let res := tgt / base
      .fin (if is_unit_logarithmic H self.unit then res else q * res)
    else value0
  match n with
  | .i64 _ => { val := .i64 (dfTrunc value), unit := some target }
  | .f64 _ => { val := .f64 value, unit := some target }

/-- Negation on a modelled double (NaN stays NaN). -/
def dfNeg : DF → DF
  | .nan => .nan
  | .fin q => .fin (-q)

/-- C `number__neg__`: the fresh `Number` gets the kind and the negated
value, but the C function never writes its `unit` field, so the result
carries whatever the allocator left in that memory — modelled by the
explicit `junk` argument. -/
def number__neg__ (self : Number) (junk : Option UnitNode) : Number :=
  { val := match self.val with
      | .i64 k => .i64 (-k)
      | .f64 d => .f64 (dfNeg d),
    unit := junk }

/-! Index and slice arithmetic, from `utils/utils.c`, the list
`__getitem__` path of `values.h`/`types/list.c`, and the string ordering
operators of `types/str.c`. -/

/-- The `SLICE_NONE` sentinel of `constants.h`. -/
def SLICE_NONE : ℤ := -999999999

/-- C `normalize_index`: wrap a negative index once, then reject anything
outside `[0, len)` with `-1`.  (The C bound check casts to `size_t`,
which agrees with this definition whenever `len ≥ 0`, the only case a
list or string length can produce.) -/
def normalize_index (index len : ℤ) : ℤ :=
  let index := if index < 0 then index + len else index
  if index < 0 ∨ len ≤ index then -1 else index

/-- C `normalize_slice`: default the `SLICE_NONE` sentinels, wrap
negative indices once, and clamp according to the sign of the step.
Returns `(start, stop, step)`. -/
def normalize_slice (len s0 e0 st0 : ℤ) : ℤ × ℤ × ℤ :=
  let st := if st0 = SLICE_NONE then 1 else st0
  let s1 := if s0 = SLICE_NONE then (if 0 < st then 0 else len - 1) else s0
  let e1 := if e0 = SLICE_NONE then (if 0 < st then len else -len - 1) else e0
  let s2 := if s1 < 0 then s1 + len else s1
  let e2 := if e1 < 0 then e1 + len else e1
  let s3 :=
    if 0 < st then (if s2 < 0 then 0 else if len < s2 then len else s2)
    else (if s2 < -1 then -1 else if len ≤ s2 then len - 1 else s2)
  let e3 :=
    if 0 < st then (if e2 < 0 then 0 else if len < e2 then len else e2)
    else (if e2 < -1 then -1 else if len ≤ e2 then len - 1 else e2)
  (s3, e3, st)

/-- Modelled from the spec (claim C9 wording): replace `NONE` sentinels
by `step = 1`, `start = 0` (`step > 0`) or `len-1` (`step < 0`), `stop =
len` (`step > 0`) or `-len-1` (`step < 0`); add `len` once to a negative
start or stop; finally clamp start and stop to the interval `[0, len]`
when `step > 0` and to `[-1, len-1]` when `step < 0`, leaving the step
unchanged. -/
def claimNormalizeSlice (len s0 e0 st0 : ℤ) : ℤ × ℤ × ℤ :=
  let st := if st0 = SLICE_NONE then 1 else st0
  let s1 := if s0 = SLICE_NONE then (if 0 < st then 0 else len - 1) else s0
  let e1 := if e0 = SLICE_NONE then (if 0 < st then len else -len - 1) else e0
  let s2 := if s1 < 0 then s1 + len else s1
  let e2 := if e1 < 0 then e1 + len else e1
  let s3 := if 0 < st then min (max s2 0) len else min (max s2 (-1)) (len - 1)
  let e3 := if 0 < st then min (max e2 0) len else min (max e2 (-1)) (len - 1)
  (s3, e3, st)

/-- C `list__getitem__`: empty lists and out-of-range normalized indices
yield `NULL` (here `none`); otherwise the stored element at the
normalized index is returned. -/
def list__getitem__ {α : Type} (l : List α) (index : ℤ) : Option α :=
  let len : ℤ := l.length
  if len = 0 then none
  else
    let nidx := normalize_index index len
    if nidx < 0 ∨ len ≤ nidx then none
    else l.get? nidx.toNat

/-- The `__getitem__` dispatcher of `values.h` specialised to lists: a
`NULL` result calls `u_throw(901, loc)`, which prints a diagnostic and
exits the process — modelled as `Except.error 901`. -/
def getitemDispatch {α : Type} (l : List α) (index : ℤ) : Except ℕ α :=
  match list__getitem__ l index with
  | none => .error 901
  | some v => .ok v

/-- The `g_utf8_strlen` of a byte buffer: the number of non-continuation
bytes (= the code-point count for well-formed UTF-8), as used by
`_str_len` in `str.c`. -/
def utf8Len (bs : List ℕ) : ℕ :=
  (bs.filter fun b => decide (¬(128 ≤ b ∧ b < 192))).length

/-- C `str__lt__`: compares the code-point lengths of the two strings. -/
def str__lt__ (a b : List ℕ) : Bool := utf8Len a < utf8Len b

/-- C `str__le__`. -/
def str__le__ (a b : List ℕ) : Bool := utf8Len a ≤ utf8Len b

/-- C `str__gt__`. -/
def str__gt__ (a b : List ℕ) : Bool := utf8Len b < utf8Len a

/-- C `str__ge__`. -/
def str__ge__ (a b : List ℕ) : Bool := utf8Len b ≤ utf8Len a

/-- Modelled from the spec (claim C8 wording): byte-wise `strcmp` order —
lexicographic comparison of the byte sequences. -/
def bytesLt : List ℕ → List ℕ → Bool
  | [], [] => false
  | [], _ :: _ => true
  | _ :: _, [] => false
  | a :: as, b :: bs =>
    if a < b then true else if b < a then false else bytesLt as bs

/-- Trivial hook table used to instantiate witnesses. -/
def trivHooks : Hooks :=
  { base_unit := fun _ x => x
    unit_id_eval := fun _ x => x
    unit_id_eval_normal := fun _ x => x
    is_logarithmic := fun _ => false }

/-- Input witnessing that `do_simplify` leaves non-canonical output: the
exponents of the two like-based powers sum to the plain scalar `2`, and
the reconstruction emits `POWER(SCALAR 3, SCALAR 2)` without folding. -/
def c2Input : UnitNode :=
  .prod [.pow (.scalar 3) (.sum [.scalar 2, .ident 0]),
         .pow (.scalar 3) (.prod [.scalar (-1), .ident 0])]

/-- Monotonicity transfer through a guard on a `node` result. -/
theorem mono_node {r1 r2 : Call → Option Res}
    (hm : ∀ c r, r1 c = some r → r2 c = some r)
    {X : Call} {K1 K2 : UnitNode → Option Res} {r : Res}
    (hK : ∀ n, r1 X = some (.node n) → K1 n = some r → K2 n = some r)
    (h : (match r1 X with | some (.node n) => K1 n | _ => none) = some r) :
    (match r2 X with | some (.node n) => K2 n | _ => none) = some r := by
  cases hx : r1 X with
  | none => rw [hx] at h; exact Option.noConfusion h
  | some v =>
    rw [hx] at h
    rw [hm _ _ hx]
    cases v with
    | node n => exact hK n hx h
    | nodes l => exact h
    | bool b => exact h
    | pickR p => exact h
    | accP a g => exact h
    | accS a g => exact h
    | listP l => exact h
    | listS l => exact h

/-- Monotonicity transfer through a guard on a `nodes` result. -/
theorem mono_nodes {r1 r2 : Call → Option Res}
    (hm : ∀ c r, r1 c = some r → r2 c = some r)
    {X : Call} {K1 K2 : List UnitNode → Option Res} {r : Res}
    (hK : ∀ n, r1 X = some (.nodes n) → K1 n = some r → K2 n = some r)
    (h : (match r1 X with | some (.nodes n) => K1 n | _ => none) = some r) :
    (match r2 X with | some (.nodes n) => K2 n | _ => none) = some r := by
  cases hx : r1 X with
  | none => rw [hx] at h; exact Option.noConfusion h
  | some v =>
    rw [hx] at h
    rw [hm _ _ hx]
    cases v with
    | node n => exact h
    | nodes l => exact hK l hx h
    | bool b => exact h
    | pickR p => exact h
    | accP a g => exact h
    | accS a g => exact h
    | listP l => exact h
    | listS l => exact h

/-- Monotonicity transfer through a guard on an `accP` result. -/
theorem mono_accP {r1 r2 : Call → Option Res}
    (hm : ∀ c r, r1 c = some r → r2 c = some r)
    {X : Call} {K1 K2 : ℚ → List (UnitNode × List UnitNode) → Option Res}
    {r : Res}
    (hK : ∀ a g, r1 X = some (.accP a g) → K1 a g = some r → K2 a g = some r)
    (h : (match r1 X with | some (.accP a g) => K1 a g | _ => none) = some r) :
    (match r2 X with | some (.accP a g) => K2 a g | _ => none) = some r := by
  cases hx : r1 X with
  | none => rw [hx] at h; exact Option.noConfusion h
  | some v =>
    rw [hx] at h
    rw [hm _ _ hx]
    cases v with
    | node n => exact h
    | nodes l => exact h
    | bool b => exact h
    | pickR p => exact h
    | accP a g => exact hK a g hx h
    | accS a g => exact h
    | listP l => exact h
    | listS l => exact h

/-- Monotonicity transfer through a guard on an `accS` result. -/
theorem mono_accS {r1 r2 : Call → Option Res}
    (hm : ∀ c r, r1 c = some r → r2 c = some r)
    {X : Call} {K1 K2 : ℚ → List (UnitNode × ℚ) → Option Res} {r : Res}
    (hK : ∀ a g, r1 X = some (.accS a g) → K1 a g = some r → K2 a g = some r)
    (h : (match r1 X with | some (.accS a g) => K1 a g | _ => none) = some r) :
    (match r2 X with | some (.accS a g) => K2 a g | _ => none) = some r := by
  cases hx : r1 X with
  | none => rw [hx] at h; exact Option.noConfusion h
  | some v =>
    rw [hx] at h
    rw [hm _ _ hx]
    cases v with
    | node n => exact h
    | nodes l => exact h
    | bool b => exact h
    | pickR p => exact h
    | accP a g => exact h
    | accS a g => exact hK a g hx h
    | listP l => exact h
    | listS l => exact h

/-- Monotonicity transfer through a guard on a `listP` result. -/
theorem mono_listP {r1 r2 : Call → Option Res}
    (hm : ∀ c r, r1 c = some r → r2 c = some r)
    {X : Call} {K1 K2 : List (UnitNode × List UnitNode) → Option Res} {r : Res}
    (hK : ∀ g, r1 X = some (.listP g) → K1 g = some r → K2 g = some r)
    (h : (match r1 X with | some (.listP g) => K1 g | _ => none) = some r) :
    (match r2 X with | some (.listP g) => K2 g | _ => none) = some r := by
  cases hx : r1 X with
  | none => rw [hx] at h; exact Option.noConfusion h
  | some v =>
    rw [hx] at h
    rw [hm _ _ hx]
    cases v with
    | node n => exact h
    | nodes l => exact h
    | bool b => exact h
    | pickR p => exact h
    | accP a g => exact h
    | accS a g => exact h
    | listP l => exact hK l hx h
    | listS l => exact h

/-- Monotonicity transfer through a guard on a `listS` result. -/
theorem mono_listS {r1 r2 : Call → Option Res}
    (hm : ∀ c r, r1 c = some r → r2 c = some r)
    {X : Call} {K1 K2 : List (UnitNode × ℚ) → Option Res} {r : Res}
    (hK : ∀ g, r1 X = some (.listS g) → K1 g = some r → K2 g = some r)
    (h : (match r1 X with | some (.listS g) => K1 g | _ => none) = some r) :
    (match r2 X with | some (.listS g) => K2 g | _ => none) = some r := by
  cases hx : r1 X with
  | none => rw [hx] at h; exact Option.noConfusion h
  | some v =>
    rw [hx] at h
    rw [hm _ _ hx]
    cases v with
    | node n => exact h
    | nodes l => exact h
    | bool b => exact h
    | pickR p => exact h
    | accP a g => exact h
    | accS a g => exact h
    | listP l => exact h
    | listS l => exact hK l hx h

/-- Monotonicity transfer through a two-way boolean guard. -/
theorem mono_bool {r1 r2 : Call → Option Res}
    (hm : ∀ c r, r1 c = some r → r2 c = some r)
    {X : Call} {T1 T2 F1 F2 : Option Res} {r : Res}
    (hT : r1 X = some (.bool true) → T1 = some r → T2 = some r)
    (hF : r1 X = some (.bool false) → F1 = some r → F2 = some r)
    (h : (match r1 X with
      | some (.bool true) => T1
      | some (.bool false) => F1
      | _ => none) = some r) :
    (match r2 X with
      | some (.bool true) => T2
      | some (.bool false) => F2
      | _ => none) = some r := by
  cases hx : r1 X with
  | none => rw [hx] at h; exact Option.noConfusion h
  | some v =>
    rw [hx] at h
    rw [hm _ _ hx]
    cases v with
    | node n => exact h
    | nodes l => exact h
    | bool b =>
      cases b with
      | true => exact hT hx h
      | false => exact hF hx h
    | pickR p => exact h
    | accP a g => exact h
    | accS a g => exact h
    | listP l => exact h
    | listS l => exact h

/-- Monotonicity transfer through a guard on a `pickR` result. -/
theorem mono_pickAny {r1 r2 : Call → Option Res}
    (hm : ∀ c r, r1 c = some r → r2 c = some r)
    {X : Call} {K1 K2 : Option (List UnitNode) → Option Res} {r : Res}
    (hK : ∀ p, r1 X = some (.pickR p) → K1 p = some r → K2 p = some r)
    (h : (match r1 X with | some (.pickR p) => K1 p | _ => none) = some r) :
    (match r2 X with | some (.pickR p) => K2 p | _ => none) = some r := by
  cases hx : r1 X with
  | none => rw [hx] at h; exact Option.noConfusion h
  | some v =>
    rw [hx] at h
    rw [hm _ _ hx]
    cases v with
    | node n => exact h
    | nodes l => exact h
    | bool b => exact h
    | pickR p => exact hK p hx h
    | accP a g => exact h
    | accS a g => exact h
    | listP l => exact h
    | listS l => exact h

/-- Monotonicity transfer through the split `pickR` guard of the group
matcher. -/
theorem mono_pickSplit {r1 r2 : Call → Option Res}
    (hm : ∀ c r, r1 c = some r → r2 c = some r)
    {X : Call} {K1 K2 : List UnitNode → Option Res} {F1 F2 : Option Res}
    {r : Res}
    (hK : ∀ bs2, r1 X = some (.pickR (some bs2)) →
      K1 bs2 = some r → K2 bs2 = some r)
    (hF : r1 X = some (.pickR none) → F1 = some r → F2 = some r)
    (h : (match r1 X with
      | some (.pickR (some bs2)) => K1 bs2
      | some (.pickR none) => F1
      | _ => none) = some r) :
    (match r2 X with
      | some (.pickR (some bs2)) => K2 bs2
      | some (.pickR none) => F2
      | _ => none) = some r := by
  cases hx : r1 X with
  | none => rw [hx] at h; exact Option.noConfusion h
  | some v =>
    rw [hx] at h
    rw [hm _ _ hx]
    cases v with
    | node n => exact h
    | nodes l => exact h
    | bool b => exact h
    | pickR p =>
      cases p with
      | some bs2 => exact hK bs2 hx h
      | none => exact hF hx h
    | accP a g => exact h
    | accS a g => exact h
    | listP l => exact h
    | listS l => exact h

/-- Monotonicity transfer through a decidable branch. -/
theorem mono_ite2 {c : Prop} [Decidable c] {A1 A2 B1 B2 : Option Res} {r : Res}
    (hA : c → A1 = some r → A2 = some r)
    (hB : ¬c → B1 = some r → B2 = some r)
    (h : (if c then A1 else B1) = some r) :
    (if c then A2 else B2) = some r := by
  split_ifs at h ⊢ with hc
  · exact hA hc h
  · exact hB hc h

/-- The machine body is monotone: refining the recursive interpretation
refines the one-step interpretation. -/
theorem runF_mono {r1 r2 : Call → Option Res}
    (hm : ∀ c r, r1 c = some r → r2 c = some r) :
    ∀ c r, runF r1 c = some r → runF r2 c = some r := by
  intro c r h
  cases c with
  | simp u =>
    cases u with
    | one => exact h
    | scalar v => exact h
    | ident i => exact h
    | expr c => exact hm _ _ h
    | pow b e => exact hm _ _ h
    | prod cs => exact hm _ _ h
    | sum cs => exact hm _ _ h
    | neg c => exact mono_node hm (fun val _ h1 => h1) h
  | power b0 e0 =>
    refine mono_node hm (fun base hb h1 => ?_) h
    refine mono_node hm (fun exp he h2 => ?_) h1
    split_ifs at h2 ⊢ <;> try exact h2
    cases base with
    | one => exact h2
    | scalar a => exact h2
    | ident i => exact h2
    | neg c2 => exact h2
    | expr c2 => exact h2
    | sum cs2 => exact h2
    | prod bv => exact hm _ _ h2
    | pow x a => exact mono_node hm (fun newExp _ h3 => hm _ _ h3) h2
  | product cs =>
    refine mono_nodes hm (fun terms _ h1 => ?_) h
    refine mono_accP hm (fun acc groups _ h2 => ?_) h1
    exact mono_nodes hm (fun rebuilt _ h3 => h3) h2
  | summ cs =>
    refine mono_nodes hm (fun terms _ h1 => ?_) h
    exact mono_accS hm (fun acc groups _ h2 => h2) h1
  | flat k cs =>
    cases cs with
    | nil => exact h
    | cons c rest =>
      refine mono_node hm (fun child _ h1 => ?_) h
      exact mono_nodes hm (fun tail _ h2 => h2) h1
  | rebuild groups =>
    match groups with
    | [] => exact h
    | (base, [e]) :: rest =>
      exact mono_nodes hm (fun tail _ h1 => h1) h
    | (base, []) :: rest =>
      refine mono_node hm (fun total _ h1 => ?_) h
      exact mono_nodes hm (fun tail _ h2 => h2) h1
    | (base, e1 :: e2 :: es) :: rest =>
      refine mono_node hm (fun total _ h1 => ?_) h
      exact mono_nodes hm (fun tail _ h2 => h2) h1
  | collP ts acc groups =>
    cases ts with
    | nil => exact h
    | cons t rest =>
      cases t
      case scalar v => exact hm _ _ h
      all_goals exact mono_listP hm (fun g2 _ h1 => hm _ _ h1) h
  | collS ts acc groups =>
    cases ts with
    | nil => exact h
    | cons t rest =>
      cases t
      case scalar v => exact hm _ _ h
      all_goals
        simp only [runF] at h ⊢
        split_ifs at h ⊢
        · exact hm _ _ h
        · exact mono_listS hm (fun g2 _ h2 => hm _ _ h2) h
  | addG groups b e =>
    cases groups with
    | nil => exact h
    | cons g rest =>
      obtain ⟨b0, eg⟩ := g
      exact mono_bool hm (fun _ h1 => h1)
        (fun _ h1 => mono_listP hm (fun rr _ h2 => h2) h1) h
  | addC groups b c0 =>
    cases groups with
    | nil => exact h
    | cons g rest =>
      obtain ⟨b0, c1⟩ := g
      exact mono_bool hm (fun _ h1 => h1)
        (fun _ h1 => mono_listS hm (fun rr _ h2 => h2) h1) h
  | eq a b =>
    cases a <;> cases b <;> try exact h
    all_goals try exact hm _ _ h
    case pow.pow xb xe yb ye =>
      exact mono_bool hm (fun _ h1 => hm _ _ h1) (fun _ h1 => h1) h
    all_goals exact mono_ite2 (fun _ h1 => hm _ _ h1) (fun _ h1 => h1) h
  | eqG as bs =>
    cases as with
    | nil => exact h
    | cons a rest =>
      exact mono_pickSplit hm (fun bs2 _ h1 => hm _ _ h1) (fun _ h1 => h1) h
  | pick a bs =>
    cases bs with
    | nil => exact h
    | cons b rest =>
      refine mono_bool hm (fun _ h1 => h1) (fun _ h1 => ?_) h
      exact mono_pickAny hm (fun p _ h2 => h2) h1

/-- Adding one unit of fuel preserves every successful result. -/
theorem run_succ_mono : ∀ (f : ℕ) (c : Call) (r : Res),
    run f c = some r → run (f + 1) c = some r := by
  intro f
  induction f with
  | zero => intro c r h; simp [run] at h
  | succ f ih =>
    intro c r h
    exact runF_mono (fun c r hh => ih c r hh) c r h

/-- Fuel monotonicity of the machine. -/
theorem run_mono {f g : ℕ} (hfg : f ≤ g) (c : Call) (r : Res)
    (h : run f c = some r) : run g c = some r := by
  induction hfg with
  | refl => exact h
  | step _ ih => exact run_succ_mono _ _ _ ih

/-- Determinism of the machine across fuels: two successful runs agree. -/
theorem run_det {f g : ℕ} {c : Call} {r r2 : Res}
    (h1 : run f c = some r) (h2 : run g c = some r2) : r = r2 := by
  rcases Nat.le_total f g with hle | hle
  · have h1g := run_mono hle c r h1
    rw [h1g] at h2
    exact Option.some_injective _ h2
  · have h2f := run_mono hle c r2 h2
    rw [h2f] at h1
    exact (Option.some_injective _ h1).symm

/-! Small stepping lemmas for the machine at positive fuel. -/

/-- Identifiers simplify to themselves in one step. -/
theorem run_simp_ident {k : ℕ} (hk : 0 < k) (i : ℕ) :
    run k (.simp (.ident i)) = some (.node (.ident i)) := by
  cases k with
  | zero => exact absurd hk (Nat.lt_irrefl 0)
  | succ j => rfl

/-- The integer `2^53 + 1` is not representable as a double: rounding to
nearest (ties to even) lands on `2^53`. -/
theorem f64ofInt_pow53_succ : f64ofInt 9007199254740993 = 9007199254740992 := by
  unfold f64ofInt
  rw [if_pos (by decide : (0 : ℤ) ≤ 9007199254740993)]
  have h1 : Int.toNat (9007199254740993 : ℤ) = 9007199254740993 := by decide
  rw [h1]
  have h2 : roundF64Nat 9007199254740993 = 9007199254740992 := by decide
  rw [h2]
  decide

/-- Naturals up to `2^53` are exactly representable as doubles. -/
theorem roundF64Nat_small {n : ℕ} (h : n ≤ 2 ^ 53) : roundF64Nat n = n := by
  have hlit : (2 : ℕ) ^ 53 = 9007199254740992 := by norm_num
  have hpow : Nat.pow 2 53 = 9007199254740992 := by decide
  rcases Nat.lt_or_ge n 9007199254740992 with hlt | hge
  · unfold roundF64Nat
    rw [if_pos (show n < Nat.pow 2 53 by omega)]
  · have hn : n = 9007199254740992 := by omega
    subst hn
    decide

/-- Integers of magnitude at most `2^53` survive the `(gdouble)` cast. -/
theorem f64ofInt_small {k : ℤ} (h : k.natAbs ≤ 2 ^ 53) : f64ofInt k = k := by
  unfold f64ofInt
  split_ifs with hs
  · rw [roundF64Nat_small (Int.toNat_le.mpr
      (Int.le_natAbs.trans (Nat.cast_le.mpr h)))]
    exact Int.toNat_of_nonneg hs
  · rw [roundF64Nat_small (Int.toNat_le.mpr (Int.le_natAbs.trans
      (by rw [Int.natAbs_neg]; exact Nat.cast_le.mpr h)))]
    rw [Int.toNat_of_nonneg (neg_nonneg.mpr (le_of_not_le hs))]
    exact neg_neg k

/-- The `Rat.floor` of an integer-valued rational. -/
theorem ratFloor_intCast (k : ℤ) : ((k : ℚ)).floor = k := by
  rw [Rat.floor_def']
  simp

/-- Truncation of an integer-valued rational recovers the integer. -/
theorem truncQ_int (k : ℤ) : truncQ (k : ℚ) = k := by
  unfold truncQ
  split_ifs with h
  · have hcast : (-(k : ℚ)) = ((-k : ℤ) : ℚ) := by push_cast; ring
    rw [hcast, ratFloor_intCast]
    ring
  · exact ratFloor_intCast k

/-- The nested-ite clamp of `normalize_slice` (positive step) is the
interval clamp onto `[0, len]`. -/
theorem clampPos (x len : ℤ) (h : 0 ≤ len) :
    (if x < 0 then 0 else if len < x then len else x) = min (max x 0) len := by
  rcases lt_or_le x 0 with h1 | h1
  · rw [if_pos h1, max_eq_right h1.le, min_eq_left h]
  · rw [if_neg (not_lt.mpr h1), max_eq_left h1]
    rcases lt_or_le len x with h2 | h2
    · rw [if_pos h2, min_eq_right h2.le]
    · rw [if_neg (not_lt.mpr h2), min_eq_left h2]

/-- The nested-ite clamp of `normalize_slice` (non-positive step) is the
interval clamp onto `[-1, len - 1]`. -/
theorem clampNeg (x len : ℤ) (h : 0 ≤ len) :
    (if x < -1 then -1 else if len ≤ x then len - 1 else x) =
      min (max x (-1)) (len - 1) := by
  rcases lt_or_le x (-1) with h1 | h1
  · rw [if_pos h1, max_eq_right h1.le, min_eq_left (by omega : (-1 : ℤ) ≤ len - 1)]
  · rw [if_neg (not_lt.mpr h1), max_eq_left h1]
    rcases le_or_lt len x with h2 | h2
    · rw [if_pos h2, min_eq_right (by omega : len - 1 ≤ x)]
    · rw [if_neg (not_le.mpr h2), min_eq_left (by omega : x ≤ len - 1)]

/-- Generic form of the final clamp stage of `normalize_slice`, over
already-computed wrapped indices. -/
theorem clampStage (len ST S2 E2 : ℤ) (hlen : 0 ≤ len) :
    ((if 0 < ST then (if S2 < 0 then 0 else if len < S2 then len else S2)
       else (if S2 < -1 then -1 else if len ≤ S2 then len - 1 else S2)),
     (if 0 < ST then (if E2 < 0 then 0 else if len < E2 then len else E2)
       else (if E2 < -1 then -1 else if len ≤ E2 then len - 1 else E2)),
     ST) =
    ((if 0 < ST then min (max S2 0) len else min (max S2 (-1)) (len - 1)),
     (if 0 < ST then min (max E2 0) len else min (max E2 (-1)) (len - 1)),
     ST) := by
  rw [Prod.mk.injEq, Prod.mk.injEq]
  by_cases hpos : 0 < ST
  · rw [if_pos hpos, if_pos hpos, if_pos hpos, if_pos hpos]
    exact ⟨clampPos _ _ hlen, clampPos _ _ hlen, rfl⟩
  · rw [if_neg hpos, if_neg hpos, if_neg hpos, if_neg hpos]
    exact ⟨clampNeg _ _ hlen, clampNeg _ _ hlen, rfl⟩

/-! Claim theorems. -/

/-- Claim C1 (confirmed): for every pair of numbers and every actual
operation table, `__add__` and `__sub__` carry exactly the unit of the
left operand; `number_binop` is total, so no unit-compatibility check or
error path exists on these operations even when the units differ. -/
theorem c1_addsub_unit_of_left (H : Hooks) (a b : Number)
    (iop : ℤ → ℤ → ℤ) (fop : ℚ → ℚ → ℚ) :
    (number_binop H a b iop fop .add).unit = a.unit ∧
    (number_binop H a b iop fop .sub).unit = a.unit := by
  constructor <;>
    · dsimp only [number_binop]
      split <;> rfl

/-- Claim C6 (code_bug evidence): `number_binop` with `OP_MOD` falls to
the `default` branch of the unit switch and produces a number whose unit
pointer is `NULL`, violating the never-null-unit invariant. -/
theorem c6_mod_unit_null (H : Hooks) (a b : Number)
    (iop : ℤ → ℤ → ℤ) (fop : ℚ → ℚ → ℚ) :
    (number_binop H a b iop fop .mod).unit = none := by
  dsimp only [number_binop]
  split <;> rfl

/-- Claim C10 (confirmed): the unit-algebra entry points are total at the
`NULL` unit: `unit_simplify(NULL)` returns a `ONE` node, `eval_unit(NULL,
x, mode)` returns `1.0` for every `x` and mode (whereas the `ONE` node
evaluates to `x` itself), and `is_unit_logarithmic(NULL)` returns true. -/
theorem c10_null_unit_totality (H : Hooks) (f : ℕ) (x : ℚ) (m : EvalMode) :
    unit_simplify f none = some UnitNode.one ∧
    eval_unit H none x m = 1 ∧
    eval_unit H (some UnitNode.one) x m = x ∧
    is_unit_logarithmic H none = true := by
  refine ⟨rfl, rfl, ?_, rfl⟩
  simp [eval_unit, evalU]

/-- Claim C7 (confirmed): the three-way comparator returns `0` whenever
either operand is a NaN double, so `__eq__` is true and `__lt__`,
`__gt__` are false on any NaN comparison (in particular NaN == NaN). -/
theorem c7_cmp_nan_zero (a b : Number)
    (h : a.val = NumVal.f64 DF.nan ∨ b.val = NumVal.f64 DF.nan) :
    number_cmp a b = 0 ∧ number__eq__ a b = true ∧
    number__lt__ a b = false ∧ number__gt__ a b = false := by
  have hc : number_cmp a b = 0 := by
    rcases h with h | h
    · cases hb : b.val with
      | i64 y => simp [number_cmp, h, hb]
      | f64 dy => cases dy <;> simp [number_cmp, h, hb, dfGt, dfLt]
    · cases ha : a.val with
      | i64 x => simp [number_cmp, h, ha]
      | f64 dx => cases dx <;> simp [number_cmp, h, ha, dfGt, dfLt]
  exact ⟨hc, by simp [number__eq__, hc], by simp [number__lt__, hc],
    by simp [number__gt__, hc]⟩

/-- Witness for C7 at NaN == NaN. -/
theorem c7_cmp_nan_zero_witness :
    number_cmp ⟨NumVal.f64 DF.nan, some UnitNode.one⟩
        ⟨NumVal.f64 DF.nan, some UnitNode.one⟩ = 0 ∧
    number__eq__ ⟨NumVal.f64 DF.nan, some UnitNode.one⟩
        ⟨NumVal.f64 DF.nan, some UnitNode.one⟩ = true ∧
    number__lt__ ⟨NumVal.f64 DF.nan, some UnitNode.one⟩
        ⟨NumVal.f64 DF.nan, some UnitNode.one⟩ = false ∧
    number__gt__ ⟨NumVal.f64 DF.nan, some UnitNode.one⟩
        ⟨NumVal.f64 DF.nan, some UnitNode.one⟩ = false :=
  c7_cmp_nan_zero _ _ (Or.inl rfl)

/-- Claim C2 (code_bug evidence): the simplifier is not idempotent.  On
`c2Input` the first pass returns `POWER(SCALAR 3, SCALAR 2)` — already
violating the documented canonical form, which folds scalar^scalar — and
a second pass folds it to `SCALAR 9`, which `unit_equal` distinguishes
from the first result. -/
theorem c2_simplify_not_idempotent :
    doSimplify 11 c2Input =
      some (UnitNode.pow (UnitNode.scalar 3) (UnitNode.scalar 2)) ∧
    doSimplify 3 (UnitNode.pow (UnitNode.scalar 3) (UnitNode.scalar 2)) =
      some (UnitNode.scalar 9) ∧
    unitEqual 1 (UnitNode.pow (UnitNode.scalar 3) (UnitNode.scalar 2))
      (UnitNode.scalar 9) = some false := by
  refine ⟨?_, ?_, ?_⟩ <;> with_unfolding_all rfl

/-- Counterexample to claim C4 as stated: converting the integer
`2^53 + 1` to a non-ONE unit changes its numeric value, because the value
round-trips through a double. -/
theorem c4_convert_loses_precision :
    (number__convert__ trivHooks
        ⟨NumVal.i64 9007199254740993, some (UnitNode.ident 0)⟩
        (UnitNode.ident 1)).val = NumVal.i64 9007199254740992 ∧
    (9007199254740993 : ℤ) = 2 ^ 53 + 1 ∧
    (9007199254740992 : ℤ) ≠ 9007199254740993 := by
  refine ⟨?_, by norm_num, by decide⟩
  simp only [number__convert__, UnitNode.kind, dfTrunc, f64ofInt_pow53_succ]
  rw [if_neg (by decide : ¬ UnitKind.identifierK = UnitKind.oneK)]
  simp
  rw [show (9007199254740992 : ℚ) = ((9007199254740992 : ℤ) : ℚ) by norm_num]
  rw [truncQ_int]

/-- Claim C4 (corrected): for a target unit whose kind is not `ONE`,
`convert` returns a new number of the same kind carrying the target unit,
and the numeric value is unchanged for doubles and for integers of
magnitude at most `2^53` (larger integers round-trip through a double). -/
theorem c4_convert_nonone (H : Hooks) (n : Number) (target : UnitNode)
    (ht : ¬ target.kind = UnitKind.oneK)
    (hsmall : ∀ k : ℤ, n.val = NumVal.i64 k → k.natAbs ≤ 2 ^ 53) :
    (number__convert__ H n target).unit = some target ∧
    (number__convert__ H n target).val = n.val := by
  cases hv : n.val with
  | i64 k =>
    have hk := hsmall k hv
    constructor
    · simp [number__convert__, hv, ht]
    · simp [number__convert__, hv, ht, dfTrunc, f64ofInt_small hk, truncQ_int]
  | f64 d =>
    constructor <;> simp [number__convert__, hv, ht]

/-- Witness for C4 (corrected) at the integer 5 with metre-to-kilometre
style units. -/
theorem c4_convert_nonone_witness :
    (number__convert__ trivHooks ⟨NumVal.i64 5, some (UnitNode.ident 0)⟩
        (UnitNode.ident 1)).unit = some (UnitNode.ident 1) ∧
    (number__convert__ trivHooks ⟨NumVal.i64 5, some (UnitNode.ident 0)⟩
        (UnitNode.ident 1)).val =
      (⟨NumVal.i64 5, some (UnitNode.ident 0)⟩ : Number).val :=
  c4_convert_nonone trivHooks ⟨NumVal.i64 5, some (UnitNode.ident 0)⟩
    (UnitNode.ident 1) (by decide)
    (fun k hk => by cases hk; norm_num)

/-- Claim C8 counterexample: `"a" < "b"` is false under the code's
`str__lt__` although byte-wise `strcmp` order makes it true — the claimed
lexicographic ordering does not hold. -/
theorem c8_str_lt_not_bytewise :
    str__lt__ [97] [98] = false ∧ bytesLt [97] [98] = true := by decide

/-- Claim C8 (corrected): the string ordering operators compare only the
code-point lengths of the operands, so strings of equal code-point length
are mutually `<=` and `>=` and never `<` or `>`, regardless of
content. -/
theorem c8_str_ord_by_length (a b : List ℕ) (h : utf8Len a = utf8Len b) :
    str__lt__ a b = false ∧ str__gt__ a b = false ∧
    str__le__ a b = true ∧ str__ge__ a b = true := by
  simp [str__lt__, str__gt__, str__le__, str__ge__, h]

/-- Witness for C8 (corrected) at `"a"`, `"b"`. -/
theorem c8_str_ord_by_length_witness :
    str__lt__ [97] [98] = false ∧ str__gt__ [97] [98] = false ∧
    str__le__ [97] [98] = true ∧ str__ge__ [97] [98] = true :=
  c8_str_ord_by_length [97] [98] (by decide)

/-- Claim C9 (confirmed): `normalize_slice` performs exactly the claimed
normalization — default the `NONE` sentinels (step first, then start and
stop from the step's sign), add `len` once to a negative start or stop,
and clamp to `[0, len]` for positive step and `[-1, len-1]` otherwise,
leaving the step unchanged. -/
theorem c9_normalize_slice_matches_claim (len s e st : ℤ) (hlen : 0 ≤ len)
    (hst : (if st = SLICE_NONE then 1 else st) ≠ 0) :
    normalize_slice len s e st = claimNormalizeSlice len s e st :=
  clampStage len _ _ _ hlen

/-- The body of `list__getitem__`, over an already-wrapped index `N`. -/
theorem list_getitem_none_gen {α : Type} (l : List α) (N : ℤ) :
    (if (l.length : ℤ) = 0 then (none : Option α)
     else if (if N < 0 ∨ (l.length : ℤ) ≤ N then -1 else N) < 0 ∨
         (l.length : ℤ) ≤ (if N < 0 ∨ (l.length : ℤ) ≤ N then -1 else N)
       then none
     else l.get? (if N < 0 ∨ (l.length : ℤ) ≤ N then -1 else N).toNat) =
      none ↔ (N < 0 ∨ (l.length : ℤ) ≤ N) := by
  by_cases h0 : (l.length : ℤ) = 0
  · rw [if_pos h0]
    refine iff_of_true rfl ?_
    rcases le_or_lt 0 N with hN | hN
    · exact Or.inr (le_of_eq_of_le h0 hN)
    · exact Or.inl hN
  · rw [if_neg h0]
    by_cases hin : (N < 0 ∨ (l.length : ℤ) ≤ N)
    · rw [if_pos hin, if_pos (Or.inl (by norm_num : (-1 : ℤ) < 0))]
      exact iff_of_true rfl hin
    · rw [if_neg hin, if_neg hin]
      rw [List.get?_eq_none]
      constructor
      · intro hge
        rcases lt_or_le N 0 with hN | hN
        · exact Or.inl hN
        · exact Or.inr ((Nat.cast_le.mpr hge).trans_eq (Int.toNat_of_nonneg hN))
      · intro hc; exact absurd hc hin

/-- `list__getitem__` fails exactly when the once-wrapped index is
outside `[0, len)`. -/
theorem list_getitem_none_iff {α : Type} (l : List α) (i : ℤ) :
    list__getitem__ l i = none ↔
      ((if i < 0 then i + (l.length : ℤ) else i) < 0 ∨
        (l.length : ℤ) ≤ (if i < 0 then i + (l.length : ℤ) else i)) :=
  list_getitem_none_gen l (if i < 0 then i + (l.length : ℤ) else i)

/-- The body of `list__getitem__` on an in-range wrapped index `N`. -/
theorem list_getitem_in_range_gen {α : Type} (l : List α) (N : ℤ)
    (h1 : 0 ≤ N) (h2 : N < (l.length : ℤ)) :
    (if (l.length : ℤ) = 0 then (none : Option α)
     else if (if N < 0 ∨ (l.length : ℤ) ≤ N then -1 else N) < 0 ∨
         (l.length : ℤ) ≤ (if N < 0 ∨ (l.length : ℤ) ≤ N then -1 else N)
       then none
     else l.get? (if N < 0 ∨ (l.length : ℤ) ≤ N then -1 else N).toNat) =
      l.get? N.toNat := by
  rw [if_neg (by omega : ¬ (l.length : ℤ) = 0)]
  rw [if_neg (by omega : ¬ (N < 0 ∨ (l.length : ℤ) ≤ N))]
  rw [if_neg (by omega : ¬ (N < 0 ∨ (l.length : ℤ) ≤ N))]

/-- In range, `list__getitem__` reads the stored element. -/
theorem list_getitem_in_range {α : Type} (l : List α) (i : ℤ)
    (h1 : 0 ≤ (if i < 0 then i + (l.length : ℤ) else i))
    (h2 : (if i < 0 then i + (l.length : ℤ) else i) < (l.length : ℤ)) :
    list__getitem__ l i =
      l.get? (if i < 0 then i + (l.length : ℤ) else i).toNat :=
  list_getitem_in_range_gen l _ h1 h2

/-- Claim C5 (confirmed): the dispatched list `__getitem__` raises error
code 901 (a process-terminating `u_throw`) exactly when the normalized
index — `i`, or `i + len` for negative `i` — falls outside `[0, len)`;
otherwise it returns the element stored at the normalized index. -/
theorem c5_list_getitem_901 {α : Type} (l : List α) (i : ℤ) :
    (getitemDispatch l i = Except.error 901 ↔
      ((if i < 0 then i + (l.length : ℤ) else i) < 0 ∨
        (l.length : ℤ) ≤ (if i < 0 then i + (l.length : ℤ) else i))) ∧
    (∀ v : α, 0 ≤ (if i < 0 then i + (l.length : ℤ) else i) →
      (if i < 0 then i + (l.length : ℤ) else i) < (l.length : ℤ) →
      l.get? (if i < 0 then i + (l.length : ℤ) else i).toNat = some v →
      getitemDispatch l i = Except.ok v) := by
  constructor
  · cases hres : list__getitem__ l i with
    | none =>
      simp only [getitemDispatch, hres, true_iff]
      exact (list_getitem_none_iff l i).mp hres
    | some v =>
      simp only [getitemDispatch, hres]
      constructor
      · intro he; cases he
      · intro hR
        rw [(list_getitem_none_iff l i).mpr hR] at hres
        cases hres
  · intro v h1 h2 h3
    simp only [getitemDispatch, list_getitem_in_range l i h1 h2, h3]

/-- Witness for C5: in-range negative index and out-of-range index on a
three-element list. -/
theorem c5_list_getitem_901_witness :
    getitemDispatch ([10, 20, 30] : List ℤ) (-1) = Except.ok 30 ∧
    getitemDispatch ([10, 20, 30] : List ℤ) 5 = Except.error 901 := by
  constructor
  · exact (c5_list_getitem_901 ([10, 20, 30] : List ℤ) (-1)).2 30
      (by norm_num) (by norm_num) (by rfl)
  · exact (c5_list_getitem_901 ([10, 20, 30] : List ℤ) 5).1.mpr (by norm_num)

/-- Witness for C9 at `len = 5`, `start = -1`, `stop = NONE`,
`step = -1`. -/
theorem c9_normalize_slice_witness :
    normalize_slice 5 (-1) SLICE_NONE (-1) =
      claimNormalizeSlice 5 (-1) SLICE_NONE (-1) :=
  c9_normalize_slice_matches_claim 5 (-1) SLICE_NONE (-1) (by norm_num)
    (by decide)

end Numerobis
